import Mathlib

/-!
Verification of the analwave streaming audio analyser pipeline.

The development shallowly embeds the two core analysers (`SilenceAnalyser`
from `src/analysers/silence.rs`, `UnderrunAnalyser` from
`src/analysers/underruns.rs`), the JSON report assembly (`src/json.rs`) and
the pipeline driver / exit-code logic (`src/main.rs`).

Modelling conventions:
* `usize` counters become `Nat` (all subtractions in the source act on
  values where the subtrahend is bounded by the minuend, matching
  truncated subtraction).
* Loudness values (`f64` LUFS) become `WithBot ℚ`: the source substitutes
  `f64::NEG_INFINITY` when the meter reports no short-term loudness, and
  only ever compares loudness values, so `⊥` adjoined to `ℚ` captures the
  reachable comparisons exactly.
* The external EBU R128 meter is an oracle: each completed window carries a
  `Measurement` recording whether `add_frames_i32` succeeded and what
  `loudness_shortterm` would report.
* `println!` event output is modelled as an explicit log-event list where a
  claim depends on it; percentages (`f32` in the source) become `ℚ`.
-/

namespace Analwave

/-- `ERR_CONTAINS_UNDERRUN` from `main.rs` (bit 0). -/
def ERR_CONTAINS_UNDERRUN : ℕ := 1

/-- `ERR_CONTAINS_SILENCE` from `main.rs` (bit 1). -/
def ERR_CONTAINS_SILENCE : ℕ := 2

/-! ## Underrun analyser (`src/analysers/underruns.rs`) -/

/-- Per-channel state, `DetectorState` in the source. -/
structure DetectorState where
  underrun_count : ℕ
  underrun_prev_index : ℕ
deriving DecidableEq, Repr

/-- One `UNDERRUN` output line: channel, run length in samples, start frame
and end frame of the reported span. -/
structure UnderrunEvent where
  channel : ℕ
  count : ℕ
  start : ℕ
  end_ : ℕ
deriving DecidableEq, Repr

/-- `UnderrunAnalyser` from the source.  `sample_rate` is carried only for
time formatting in log output and never influences the analysis. -/
structure UnderrunAnalyser where
  contains_underrun : Bool
  num_frames : ℕ
  states : List DetectorState
  sample_rate : ℕ
  samples : ℕ
deriving DecidableEq, Repr

/-- `UnderrunAnalyser::new`: all per-channel states start at zero. -/
def UnderrunAnalyser.new (channels sample_rate samples num_frames : ℕ) :
    UnderrunAnalyser :=
  { contains_underrun := false
    num_frames := num_frames
    states := List.replicate channels ⟨0, 0⟩
    sample_rate := sample_rate
    samples := samples }

/-- The per-channel state update of `UnderrunAnalyser::analyse` for a single
sample: a zero extends the run (restarting it when the gap since the
previous zero exceeds one frame) and records the frame index; a non-zero
sample resets the run length. -/
def stepChannelState (fc : ℕ) (st : DetectorState) (x : ℤ) : DetectorState :=
  if x = 0 then
    ⟨(if fc - st.underrun_prev_index > 1 then 0 else st.underrun_count) + 1, fc⟩
  else
    ⟨0, st.underrun_prev_index⟩

/-- The channel loop of `UnderrunAnalyser::analyse`: walks the frame's
samples in channel order, updating each channel's state and emitting an
`UNDERRUN` event when a non-zero sample terminates a run of at least
`samples` zeros. -/
def analyseChans (samples fc : ℕ) :
    ℕ → List DetectorState → List ℤ → List DetectorState × List UnderrunEvent
  | _, sts, [] => (sts, [])
  | _, [], _ => ([], [])
  | ch, st :: sts, x :: xs =>
    let rest := analyseChans samples fc (ch + 1) sts xs
    (stepChannelState fc st x :: rest.1,
      (if x ≠ 0 ∧ st.underrun_count ≥ samples then
        [⟨ch, st.underrun_count, fc - st.underrun_count, fc⟩]
      else []) ++ rest.2)

/-- `UnderrunAnalyser::analyse`: one frame, every channel; the
`contains_underrun` flag latches as soon as any event is emitted. -/
def UnderrunAnalyser.analyse (a : UnderrunAnalyser) (frame_counter : ℕ)
    (frame : List ℤ) : UnderrunAnalyser × List UnderrunEvent :=
  let r := analyseChans a.samples frame_counter 0 a.states frame
  ({ a with states := r.1,
            contains_underrun := a.contains_underrun || !r.2.isEmpty }, r.2)

/-- The channel loop of `UnderrunAnalyser::finish`: for every channel whose
run is still open with length at least `samples`, emit a closing event
spanning up to `num_frames`. -/
def finishEvents (samples num_frames : ℕ) :
    ℕ → List DetectorState → List UnderrunEvent
  | _, [] => []
  | ch, st :: sts =>
    (if st.underrun_count ≥ samples then
      [⟨ch, st.underrun_count, num_frames - st.underrun_count, num_frames⟩]
    else []) ++ finishEvents samples num_frames (ch + 1) sts

/-- `UnderrunAnalyser::finish`: returns the result-bit contribution and the
closing events. -/
def UnderrunAnalyser.finish (a : UnderrunAnalyser) : ℕ × List UnderrunEvent :=
  let evs := finishEvents a.samples a.num_frames 0 a.states
  (if a.contains_underrun || !evs.isEmpty then ERR_CONTAINS_UNDERRUN else 0, evs)

/-- `UnderrunAnalyser` relies on the `Analyser` trait's default `json`,
which is `None`. -/
def UnderrunAnalyser.json (_ : UnderrunAnalyser) :
    Option (String × (List SilenceSegment × ℚ)) := none

/-- The pipeline driver's loop restricted to the underrun analyser: frames
are dispatched in order with 0-based frame counters. -/
def runUnderrun (a : UnderrunAnalyser) (start : ℕ) :
    List (List ℤ) → UnderrunAnalyser × List UnderrunEvent
  | [] => (a, [])
  | f :: rest =>
    let r := a.analyse start f
    let rr := runUnderrun r.1 (start + 1) rest
    (rr.1, r.2 ++ rr.2)

/-! ## Silence analyser (`src/analysers/silence.rs`) -/

/-- `SilenceState` from the source; `previous_lufs` lives in `WithBot ℚ`
(`⊥` standing for `f64::NEG_INFINITY`). -/
structure SilenceState where
  previous_lufs : WithBot ℚ
  silence_start_frame : ℕ
  silence_end_frame : ℕ
deriving DecidableEq

/-- `SilenceState::new`: loud by default (`previous_lufs = 0.0`). -/
def SilenceState.new : SilenceState :=
  { previous_lufs := (0 : ℚ), silence_start_frame := 0, silence_end_frame := 0 }

/-- `InternalSegment` from the source: an open-or-closed silence segment. -/
structure InternalSegment where
  start : ℕ
  end_ : Option ℕ
deriving DecidableEq, Repr

/-- Oracle outcome of the external EBU R128 meter for one completed window:
whether `add_frames_i32` succeeded, and the `loudness_shortterm` reading
(`none` when the meter reports no value). -/
structure Measurement where
  addFramesOk : Bool
  shortTerm : Option ℚ
deriving DecidableEq

/-- `loudness_shortterm().unwrap_or(f64::NEG_INFINITY)`. -/
def shortTermLufs (m : Measurement) : WithBot ℚ :=
  match m.shortTerm with
  | some q => (q : WithBot ℚ)
  | none => ⊥

/-- Console output of `SilenceAnalyser::analyse`: the add-frames warning and
the SILENCE START / SILENCE END event lines. -/
inductive SilenceLog where
  | warningAddFrames : SilenceLog
  | silenceStart : ℕ → SilenceLog
  | silenceEnd : ℕ → SilenceLog
deriving DecidableEq

/-- `SilenceSegment` from the source: the JSON export shape of one
segment. -/
structure SilenceSegment where
  start : ℚ
  end_ : ℚ
  duration : ℚ
  start_sample : ℕ
  end_sample : ℕ
  duration_samples : ℕ
deriving DecidableEq

/-- `SilenceAnalyser` from the source.  The `EbuR128` handle is external and
is represented by the per-window `Measurement` oracle instead. -/
structure SilenceAnalyser where
  count : ℕ
  frame_buf : List ℤ
  frame_buf_iter : ℕ
  lufs : ℚ
  num_frames : ℕ
  percentage : ℚ
  sample_rate : ℕ
  state : SilenceState
  window_size : ℕ
  segments : List InternalSegment
deriving DecidableEq

/-- `SilenceAnalyser::new`: the window buffer holds
`sample_rate × channels` samples, initially zeroed. -/
def SilenceAnalyser.new (channels sample_rate : ℕ) (lufs percentage : ℚ)
    (num_frames : ℕ) : SilenceAnalyser :=
  { count := 0
    frame_buf := List.replicate (sample_rate * channels) 0
    frame_buf_iter := 0
    lufs := lufs
    num_frames := num_frames
    percentage := percentage
    sample_rate := sample_rate
    state := SilenceState.new
    window_size := sample_rate * channels
    segments := [] }

/-- The buffer-filling loop at the head of `SilenceAnalyser::analyse`: each
sample of the frame is written at the cursor, which advances by one. -/
def fillBuf (buf : List ℤ) (iter : ℕ) (frame : List ℤ) : List ℤ × ℕ :=
  frame.foldl (fun bi s => (bi.1.set bi.2 s, bi.2 + 1)) (buf, iter)

/-- `self.segments.last_mut()` followed by `segment.end = Some e`: sets the
end of the most recently opened segment, a no-op on an empty list. -/
def setLastEnd : List InternalSegment → ℕ → List InternalSegment
  | [], _ => []
  | [s], e => [{ s with end_ := some e }]
  | s :: s' :: rest, e => s :: setLastEnd (s' :: rest) e

/-- `SilenceAnalyser::analyse`: fill the window buffer; when it becomes
full, reset the meter, feed it the window (a failure only logs a warning),
read the short-term loudness with `⊥` substituted when absent, run the
edge-triggered threshold logic against `previous_lufs`, and finally record
the new loudness as `previous_lufs`. -/
def SilenceAnalyser.analyse (a : SilenceAnalyser) (m : Measurement)
    (frame_counter : ℕ) (frame : List ℤ) : SilenceAnalyser × List SilenceLog :=
  let buf := (fillBuf a.frame_buf a.frame_buf_iter frame).1
  let iter := (fillBuf a.frame_buf a.frame_buf_iter frame).2
  if iter ≥ a.window_size then
    let lufs := shortTermLufs m
    let warn : List SilenceLog := if m.addFramesOk then [] else [.warningAddFrames]
    let a1 := { a with frame_buf := buf, frame_buf_iter := 0 }
    let a2 :=
      if lufs < (a.lufs : WithBot ℚ) ∧ a.state.previous_lufs ≥ (a.lufs : WithBot ℚ) then
        { a1 with
            state := { a1.state with silence_start_frame := frame_counter }
            segments := a1.segments ++ [{ start := frame_counter, end_ := none }] }
      else a1
    let log2 : List SilenceLog :=
      if lufs < (a.lufs : WithBot ℚ) ∧ a.state.previous_lufs ≥ (a.lufs : WithBot ℚ) then
        [.silenceStart frame_counter]
      else []
    let a3 :=
      if lufs ≥ (a.lufs : WithBot ℚ) ∧ a.state.previous_lufs < (a.lufs : WithBot ℚ) then
        { a2 with
            state := { a2.state with silence_end_frame := frame_counter }
            count := a2.count + (frame_counter - a2.state.silence_start_frame)
            segments := setLastEnd a2.segments frame_counter }
      else a2
    let log3 : List SilenceLog :=
      if lufs ≥ (a.lufs : WithBot ℚ) ∧ a.state.previous_lufs < (a.lufs : WithBot ℚ) then
        [.silenceEnd frame_counter]
      else []
    ({ a3 with state := { a3.state with previous_lufs := lufs } },
      warn ++ log2 ++ log3)
  else
    ({ a with frame_buf := buf, frame_buf_iter := iter }, [])

/-- The observable effect of `SilenceAnalyser::finish`: the result-bit
contribution, the silent-sample total used for the percentage (a local in
the source), and the possibly-closed segment list. -/
structure SilenceFinish where
  code : ℕ
  count : ℕ
  segments : List InternalSegment
deriving DecidableEq

/-- `SilenceAnalyser::finish`: when the stream ends below threshold, close
the open segment at `num_frames`, add the open duration to the silent
total, and set the silence bit when the silent percentage reaches the
configured threshold; otherwise return 0 with everything untouched. -/
def SilenceAnalyser.finish (a : SilenceAnalyser) : SilenceFinish :=
  if a.state.previous_lufs < (a.lufs : WithBot ℚ) then
    let end_frame := a.num_frames
    let count := a.count + (end_frame - a.state.silence_start_frame)
    { code :=
        if ((count : ℚ) / (a.num_frames : ℚ)) * 100 ≥ a.percentage then
          ERR_CONTAINS_SILENCE
        else 0
      count := count
      segments := setLastEnd a.segments end_frame }
  else
    { code := 0, count := a.count, segments := a.segments }

/-- The per-segment export closure inside `SilenceAnalyser::json`: an open
segment is closed at `num_frames`, and seconds are derived by dividing
frame counts by the sample rate. -/
def segJson (num_frames sample_rate : ℕ) (seg : InternalSegment) : SilenceSegment :=
  let end_frame : ℕ := seg.end_.getD num_frames
  let duration_samples : ℕ := end_frame - seg.start
  { start := (seg.start : ℚ) / (sample_rate : ℚ)
    end_ := (end_frame : ℚ) / (sample_rate : ℚ)
    duration := (duration_samples : ℚ) / (sample_rate : ℚ)
    start_sample := seg.start
    end_sample := end_frame
    duration_samples := duration_samples }

/-- `SilenceAnalyser::json`: `None` when no segment was recorded, otherwise
the `"silence"` fragment holding every segment and the configured LUFS
threshold. -/
def SilenceAnalyser.json (a : SilenceAnalyser) :
    Option (String × (List SilenceSegment × ℚ)) :=
  if a.segments.isEmpty then none
  else some ("silence", (a.segments.map (segJson a.num_frames a.sample_rate), a.lufs))

/-- The pipeline driver's loop restricted to the silence analyser: frames
arrive in order, each paired with the meter oracle's outcome for the window
it may complete. -/
def runSilence (a : SilenceAnalyser) (start : ℕ) :
    List (Measurement × List ℤ) → SilenceAnalyser × List SilenceLog
  | [] => (a, [])
  | (m, f) :: rest =>
    let r := a.analyse m start f
    let rr := runSilence r.1 (start + 1) rest
    (rr.1, r.2 ++ rr.2)

/-! ## Report assembly (`src/json.rs`) -/

/-- `write_json`'s map assembly: every analyser contributing `Some`
fragment is inserted under its own key; analysers contributing `None` are
omitted.  The caller writes no file at all when the map is empty. -/
def write_json (frags : List (Option (String × (List SilenceSegment × ℚ)))) :
    List (String × (List SilenceSegment × ℚ)) :=
  frags.foldl (fun acc f => match f with
    | some kv => acc ++ [kv]
    | none => acc) []

/-! ## Pipeline driver and exit status (`src/main.rs`) -/

/-- The CLI options that reach `analyze`. -/
structure AnalyzeArgs where
  underrun : Bool
  silence : Bool
  samples : ℕ
  lufs : ℚ
  silence_percentage : ℚ
deriving DecidableEq

/-- `analyze` from `main.rs`: runs each enabled analyser over the single
pass of frames and ORs the result-bit contributions into the return code
(mid-stream underrun detections latch into the analyser's flag and reach
the code through `finish`). -/
def analyze (args : AnalyzeArgs) (channels sample_rate num_frames : ℕ)
    (inputs : List (Measurement × List ℤ)) : ℕ :=
  let uCode :=
    if args.underrun then
      ((runUnderrun (UnderrunAnalyser.new channels sample_rate args.samples num_frames)
          0 (inputs.map Prod.snd)).1.finish).1
    else 0
  let sCode :=
    if args.silence then
      ((runSilence (SilenceAnalyser.new channels sample_rate args.lufs
          args.silence_percentage num_frames) 0 inputs).1).finish.code
    else 0
  uCode ||| sCode

/-- `main` from `main.rs`: an unopenable input exits 1 before any analysis;
a configuration with neither analyser enabled exits 1; otherwise the exit
status is `analyze`'s return code. -/
def mainExit (fileOk : Bool) (args : AnalyzeArgs)
    (channels sample_rate num_frames : ℕ)
    (inputs : List (Measurement × List ℤ)) : ℕ :=
  if !fileOk then 1
  else if !args.underrun && !args.silence then 1
  else analyze args channels sample_rate num_frames inputs

/-! ## Specification-side helpers -/

/-- The sample sequence a fixed channel observes across a frame list. -/
def chanSamples (i : ℕ) (frames : List (List ℤ)) : List ℤ :=
  frames.map fun f => f.getD i 0

/-- Length of the maximal contiguous block of zeros ending at the end of
the list (0 when the list ends with a non-zero sample or is empty). -/
def zeroSuffixLen (s : List ℤ) : ℕ :=
  s.foldl (fun n x => if x = 0 then n + 1 else 0) 0

/-- Helper for `lastZeroIdx`: scans left to right carrying the index of the
most recent zero seen so far. -/
def lastZeroIdxAux : ℕ → ℕ → List ℤ → ℕ
  | _, acc, [] => acc
  | i, acc, x :: rest => lastZeroIdxAux (i + 1) (if x = 0 then i else acc) rest

/-- Index of the most recent zero sample in the list, 0 when there is
none. -/
def lastZeroIdx (s : List ℤ) : ℕ :=
  lastZeroIdxAux 0 0 s

/-! ## Underrun analyser lemmas -/

theorem getD_replicate {α : Type} (d v : α) :
    ∀ (k i : ℕ), i < k → (List.replicate k v).getD i d = v := by
  intro k
  induction k with
  | zero => intro i hi; omega
  | succ k ih =>
    intro i hi
    cases i with
    | zero => rfl
    | succ i => simpa [List.replicate_succ] using ih i (by omega)

theorem analyseChans_length (samples fc : ℕ) :
    ∀ (ch : ℕ) (sts : List DetectorState) (xs : List ℤ),
      (analyseChans samples fc ch sts xs).1.length = sts.length := by
  intro ch sts xs
  induction sts generalizing ch xs with
  | nil => cases xs <;> rfl
  | cons st sts ih =>
    cases xs with
    | nil => rfl
    | cons x xs => simpa [analyseChans] using ih (ch + 1) xs

theorem analyseChans_getD (samples fc : ℕ) :
    ∀ (ch : ℕ) (sts : List DetectorState) (xs : List ℤ) (i : ℕ),
      i < sts.length → i < xs.length →
      (analyseChans samples fc ch sts xs).1.getD i ⟨0, 0⟩ =
        stepChannelState fc (sts.getD i ⟨0, 0⟩) (xs.getD i 0) := by
  intro ch sts xs i hs hx
  induction sts generalizing ch xs i with
  | nil => simp at hs
  | cons st sts ih =>
    cases xs with
    | nil => simp at hx
    | cons x xs =>
      cases i with
      | zero => rfl
      | succ i =>
        simpa [analyseChans] using
          ih (ch + 1) xs i (by simpa using hs) (by simpa using hx)

theorem analyse_fields (a : UnderrunAnalyser) (fc : ℕ) (f : List ℤ) :
    (a.analyse fc f).1.samples = a.samples
    ∧ (a.analyse fc f).1.num_frames = a.num_frames
    ∧ (a.analyse fc f).1.sample_rate = a.sample_rate
    ∧ (a.analyse fc f).1.states.length = a.states.length := by
  refine ⟨rfl, rfl, rfl, ?_⟩
  simpa [UnderrunAnalyser.analyse] using analyseChans_length a.samples fc 0 a.states f

theorem runUnderrun_fields (frames : List (List ℤ)) :
    ∀ (a : UnderrunAnalyser) (s : ℕ),
      (runUnderrun a s frames).1.samples = a.samples
      ∧ (runUnderrun a s frames).1.num_frames = a.num_frames
      ∧ (runUnderrun a s frames).1.states.length = a.states.length := by
  induction frames with
  | nil => intro a s; exact ⟨rfl, rfl, rfl⟩
  | cons f frames ih =>
    intro a s
    have h := analyse_fields a s f
    have h' := ih (a.analyse s f).1 (s + 1)
    refine ⟨?_, ?_, ?_⟩ <;> simp [runUnderrun, h'.1, h'.2.1, h'.2.2, h.1, h.2.1, h.2.2.2]

theorem runUnderrun_append (l l' : List (List ℤ)) :
    ∀ (a : UnderrunAnalyser) (s : ℕ),
      (runUnderrun a s (l ++ l')).1 =
        (runUnderrun (runUnderrun a s l).1 (s + l.length) l').1 := by
  induction l with
  | nil => intro a s; simp [runUnderrun]
  | cons f l ih =>
    intro a s
    simp only [List.cons_append, runUnderrun, List.append_eq, List.length_cons]
    rw [ih]
    have h : s + (l.length + 1) = s + 1 + l.length := by omega
    rw [h]

theorem zeroSuffixLen_append (s : List ℤ) (x : ℤ) :
    zeroSuffixLen (s ++ [x]) = if x = 0 then zeroSuffixLen s + 1 else 0 := by
  simp [zeroSuffixLen, List.foldl_append]

theorem lastZeroIdxAux_append (x : ℤ) :
    ∀ (l : List ℤ) (i acc : ℕ),
      lastZeroIdxAux i acc (l ++ [x]) =
        if x = 0 then i + l.length else lastZeroIdxAux i acc l := by
  intro l
  induction l with
  | nil => intro i acc; simp [lastZeroIdxAux]
  | cons y l ih =>
    intro i acc
    show lastZeroIdxAux (i + 1) (if y = 0 then i else acc) (l ++ [x]) = _
    rw [ih]
    by_cases hx : x = 0
    · simp only [if_pos hx, List.length_cons]
      omega
    · simp only [if_neg hx, lastZeroIdxAux]

theorem lastZeroIdx_append (s : List ℤ) (x : ℤ) :
    lastZeroIdx (s ++ [x]) = if x = 0 then s.length else lastZeroIdx s := by
  simpa [lastZeroIdx] using lastZeroIdxAux_append x s 0 0

theorem lastZeroIdx_of_zeroSuffix_pos :
    ∀ s : List ℤ, zeroSuffixLen s ≠ 0 → lastZeroIdx s = s.length - 1 := by
  intro s
  induction s using List.reverseRecOn with
  | nil => intro h; simp [zeroSuffixLen] at h
  | append_singleton l x ih =>
    intro h
    rw [zeroSuffixLen_append] at h
    rw [lastZeroIdx_append]
    by_cases hx : x = 0
    · simp [hx]
    · simp [hx] at h

theorem stepChannelState_spec (s : List ℤ) (x : ℤ) :
    stepChannelState s.length ⟨zeroSuffixLen s, lastZeroIdx s⟩ x =
      ⟨zeroSuffixLen (s ++ [x]), lastZeroIdx (s ++ [x])⟩ := by
  by_cases hx : x = 0
  · subst hx
    rw [zeroSuffixLen_append, lastZeroIdx_append]
    simp only [if_pos rfl]
    unfold stepChannelState
    rw [if_pos rfl]
    by_cases hz : zeroSuffixLen s = 0
    · simp [hz]
    · have hl := lastZeroIdx_of_zeroSuffix_pos s hz
      have : ¬ s.length - lastZeroIdx s > 1 := by omega
      simp [this]
  · rw [zeroSuffixLen_append, lastZeroIdx_append]
    simp [stepChannelState, hx]

theorem runUnderrun_state_spec (C sr samples n i : ℕ) (hi : i < C) :
    ∀ frames : List (List ℤ), (∀ f ∈ frames, f.length = C) →
      (runUnderrun (UnderrunAnalyser.new C sr samples n) 0 frames).1.states.getD i ⟨0, 0⟩ =
        ⟨zeroSuffixLen (chanSamples i frames), lastZeroIdx (chanSamples i frames)⟩ := by
  intro frames
  induction frames using List.reverseRecOn with
  | nil =>
    intro _
    simp only [runUnderrun, UnderrunAnalyser.new, chanSamples, List.map_nil]
    rw [getD_replicate _ _ C i hi]
    rfl
  | append_singleton l f ih =>
    intro hlen
    have hlen' : ∀ g ∈ l, g.length = C := fun g hg => hlen g (by simp [hg])
    have hf : f.length = C := hlen f (by simp)
    rw [runUnderrun_append]
    set A := (runUnderrun (UnderrunAnalyser.new C sr samples n) 0 l).1 with hA
    have hfields := runUnderrun_fields l (UnderrunAnalyser.new C sr samples n) 0
    have hAlen : A.states.length = C := by
      rw [← hA] at hfields
      simpa [UnderrunAnalyser.new] using hfields.2.2
    simp only [runUnderrun, UnderrunAnalyser.analyse]
    rw [analyseChans_getD A.samples (0 + l.length) 0 A.states f i
      (by omega) (by omega)]
    rw [ih hlen']
    have hchan : chanSamples i (l ++ [f]) = chanSamples i l ++ [f.getD i 0] := by
      simp [chanSamples]
    have hclen : (chanSamples i l).length = l.length := by simp [chanSamples]
    rw [hchan, ← hclen]
    have := stepChannelState_spec (chanSamples i l) (f.getD i 0)
    simpa [Nat.zero_add] using this

theorem finishEvents_channel_lb (samples n : ℕ) :
    ∀ (sts : List DetectorState) (ch : ℕ) (e : UnderrunEvent),
      e ∈ finishEvents samples n ch sts → ch ≤ e.channel := by
  intro sts
  induction sts with
  | nil => intro ch e he; simp [finishEvents] at he
  | cons st sts ih =>
    intro ch e he
    simp only [finishEvents, List.mem_append] at he
    rcases he with he | he
    · by_cases h : st.underrun_count ≥ samples
      · simp [h] at he; simp [he]
      · simp [h] at he
    · have := ih (ch + 1) e he
      omega

theorem finishEvents_filter (samples n : ℕ) :
    ∀ (sts : List DetectorState) (ch i : ℕ), i < sts.length →
      (finishEvents samples n ch sts).filter (fun e => e.channel == ch + i) =
        (if (sts.getD i ⟨0, 0⟩).underrun_count ≥ samples then
          [⟨ch + i, (sts.getD i ⟨0, 0⟩).underrun_count,
            n - (sts.getD i ⟨0, 0⟩).underrun_count, n⟩]
        else []) := by
  intro sts
  induction sts with
  | nil => intro ch i hi; simp at hi
  | cons st sts ih =>
    intro ch i hi
    have htail : ∀ e ∈ finishEvents samples n (ch + 1) sts, ch + 1 ≤ e.channel :=
      fun e he => finishEvents_channel_lb samples n sts (ch + 1) e he
    cases i with
    | zero =>
      have htail0 : (finishEvents samples n (ch + 1) sts).filter
          (fun e => e.channel == ch + 0) = [] := by
        rw [List.filter_eq_nil_iff]
        intro e he
        have := htail e he
        simp only [beq_iff_eq]
        omega
      by_cases h : st.underrun_count ≥ samples
      · simp only [finishEvents, if_pos h, List.filter_append, htail0,
          List.append_nil, List.getD_cons_zero]
        simp [h]
      · simp only [finishEvents, if_neg h, List.filter_append, htail0,
          List.append_nil, List.getD_cons_zero]
        simp [h]
    | succ i =>
      have hhead : ∀ e ∈ (if st.underrun_count ≥ samples then
          [(⟨ch, st.underrun_count, n - st.underrun_count, n⟩ : UnderrunEvent)]
        else []), ¬(e.channel == ch + (i + 1)) = true := by
        intro e he
        by_cases h : st.underrun_count ≥ samples
        · simp only [h, if_pos] at he
          simp only [List.mem_singleton] at he
          simp only [he, beq_iff_eq]
          omega
        · simp [h] at he
      have := ih (ch + 1) i (by simpa using hi)
      simp only [finishEvents, List.filter_append]
      rw [List.filter_eq_nil_iff.mpr hhead]
      simp only [List.nil_append, List.getD_cons_succ]
      have harith : ch + 1 + i = ch + (i + 1) := by omega
      rw [← harith, this]

theorem finishEvents_all_small (samples n : ℕ) :
    ∀ (sts : List DetectorState) (ch : ℕ),
      (∀ st ∈ sts, st.underrun_count < samples) →
      finishEvents samples n ch sts = [] := by
  intro sts
  induction sts with
  | nil => intro ch _; rfl
  | cons st sts ih =>
    intro ch h
    have h0 : ¬ st.underrun_count ≥ samples := by
      have := h st (by simp); omega
    simp only [finishEvents, if_neg h0, List.nil_append]
    exact ih (ch + 1) fun s hs => h s (by simp [hs])

/-- Claim C5: at the Underrun Analyser's `finish`, every channel whose
zero-run is still open with length at least the configured minimum gets
exactly one closing event spanning up to `num_frames` and the underrun bit
is set; an open run strictly shorter than the minimum emits no event for
that channel, and when nothing qualified mid-stream or at finish the code
is 0. -/
theorem underrun_finish_C5 (a : UnderrunAnalyser) (i : ℕ)
    (hi : i < a.states.length) :
    ((a.states.getD i ⟨0, 0⟩).underrun_count ≥ a.samples →
      a.finish.2.filter (fun e => e.channel == i) =
        [⟨i, (a.states.getD i ⟨0, 0⟩).underrun_count,
          a.num_frames - (a.states.getD i ⟨0, 0⟩).underrun_count, a.num_frames⟩]
      ∧ a.finish.1 = ERR_CONTAINS_UNDERRUN)
    ∧ ((a.states.getD i ⟨0, 0⟩).underrun_count < a.samples →
      a.finish.2.filter (fun e => e.channel == i) = [])
    ∧ (a.contains_underrun = false →
      (∀ st ∈ a.states, st.underrun_count < a.samples) → a.finish.1 = 0) := by
  have hfilter := finishEvents_filter a.samples a.num_frames a.states 0 i hi
  simp only [Nat.zero_add] at hfilter
  refine ⟨?_, ?_, ?_⟩
  · intro h
    have hf : a.finish.2.filter (fun e => e.channel == i) =
        [⟨i, (a.states.getD i ⟨0, 0⟩).underrun_count,
          a.num_frames - (a.states.getD i ⟨0, 0⟩).underrun_count, a.num_frames⟩] := by
      show (finishEvents a.samples a.num_frames 0 a.states).filter _ = _
      rw [hfilter, if_pos h]
    refine ⟨hf, ?_⟩
    have hmem : (⟨i, (a.states.getD i ⟨0, 0⟩).underrun_count,
        a.num_frames - (a.states.getD i ⟨0, 0⟩).underrun_count, a.num_frames⟩ :
        UnderrunEvent) ∈ a.finish.2 := by
      have : (⟨i, (a.states.getD i ⟨0, 0⟩).underrun_count,
          a.num_frames - (a.states.getD i ⟨0, 0⟩).underrun_count, a.num_frames⟩ :
          UnderrunEvent) ∈ a.finish.2.filter (fun e => e.channel == i) := by
        rw [hf]; simp
      exact List.mem_of_mem_filter this
    have hne : finishEvents a.samples a.num_frames 0 a.states ≠ [] := by
      intro hnil
      have h2 : a.finish.2 = [] := hnil
      rw [h2] at hmem; simp at hmem
    show (if a.contains_underrun ||
        !(finishEvents a.samples a.num_frames 0 a.states).isEmpty then
          ERR_CONTAINS_UNDERRUN else 0) = ERR_CONTAINS_UNDERRUN
    have hEf : (finishEvents a.samples a.num_frames 0 a.states).isEmpty = false := by
      cases hE : finishEvents a.samples a.num_frames 0 a.states with
      | nil => exact absurd hE hne
      | cons e es => rfl
    rw [hEf]
    simp
  · intro h
    show (finishEvents a.samples a.num_frames 0 a.states).filter _ = _
    rw [hfilter, if_neg (by omega)]
  · intro hc hall
    have hnil := finishEvents_all_small a.samples a.num_frames a.states 0 hall
    show (if a.contains_underrun ||
        !(finishEvents a.samples a.num_frames 0 a.states).isEmpty then
          ERR_CONTAINS_UNDERRUN else 0) = 0
    rw [hnil, hc]
    rfl

/-- Witness for C5 at a concrete state: one channel with an open run of 3
zeros against minimum 2 yields exactly the closing event `[5, 8)` and the
underrun bit. -/
theorem underrun_finish_C5_witness :
    (3 ≥ 2)
    ∧ ({ contains_underrun := false, num_frames := 8,
          states := [⟨3, 7⟩], sample_rate := 1, samples := 2 } :
        UnderrunAnalyser).finish.2.filter (fun e => e.channel == 0) =
        [⟨0, 3, 5, 8⟩]
    ∧ ({ contains_underrun := false, num_frames := 8,
          states := [⟨3, 7⟩], sample_rate := 1, samples := 2 } :
        UnderrunAnalyser).finish.1 = ERR_CONTAINS_UNDERRUN :=
  ⟨by omega,
    (underrun_finish_C5 ⟨false, 8, [⟨3, 7⟩], 1, 2⟩ 0 (by decide)).1 (by decide) |>.1,
    (underrun_finish_C5 ⟨false, 8, [⟨3, 7⟩], 1, 2⟩ 0 (by decide)).1 (by decide) |>.2⟩

/-- Claim C10: for frames carrying one sample per channel dispatched in
order from index 0, after processing the whole frame list each channel's
`underrun_count` is the length of the maximal contiguous block of zero
samples at the end of that channel's sample sequence (0 when it ends
non-zero), and `underrun_prev_index` is the index of the most recent zero
on that channel (0 if none yet). -/
theorem underrun_state_invariant_C10 (C sr samples n i : ℕ)
    (frames : List (List ℤ)) (hi : i < C)
    (hlen : ∀ f ∈ frames, f.length = C) :
    ((runUnderrun (UnderrunAnalyser.new C sr samples n) 0 frames).1.states.getD
        i ⟨0, 0⟩).underrun_count = zeroSuffixLen (chanSamples i frames)
    ∧ ((runUnderrun (UnderrunAnalyser.new C sr samples n) 0 frames).1.states.getD
        i ⟨0, 0⟩).underrun_prev_index = lastZeroIdx (chanSamples i frames) := by
  rw [runUnderrun_state_spec C sr samples n i hi frames hlen]
  exact ⟨rfl, rfl⟩

/-- Witness for C10: one channel, frames `[0], [1], [0]`: the final run
length is 1 and the last zero index is 2. -/
theorem underrun_state_invariant_C10_witness :
    (0 < 1) ∧ (∀ f ∈ [[(0 : ℤ)], [1], [0]], f.length = 1)
    ∧ ((runUnderrun (UnderrunAnalyser.new 1 48000 16 3) 0
        [[0], [1], [0]]).1.states.getD 0 ⟨0, 0⟩).underrun_count =
        zeroSuffixLen (chanSamples 0 [[0], [1], [0]])
    ∧ ((runUnderrun (UnderrunAnalyser.new 1 48000 16 3) 0
        [[0], [1], [0]]).1.states.getD 0 ⟨0, 0⟩).underrun_prev_index =
        lastZeroIdx (chanSamples 0 [[0], [1], [0]]) :=
  ⟨by decide, by decide,
    (underrun_state_invariant_C10 1 48000 16 3 0 [[0], [1], [0]]
      (by decide) (by decide)).1,
    (underrun_state_invariant_C10 1 48000 16 3 0 [[0], [1], [0]]
      (by decide) (by decide)).2⟩

/-- Counterexample to claim C6 as stated: with minimum run length 2 and a
single-channel stream `[1], [0]` whose last `2 − 1 = 1` samples are zero,
`finish` emits no event at all (the open run of length 1 is below the
minimum) and the code is 0, not the single spanning event the claim
demands. -/
theorem underrun_eos_closure_C6_cex :
    zeroSuffixLen (chanSamples 0 [[1], [0]]) = 2 - 1
    ∧ ((runUnderrun (UnderrunAnalyser.new 1 1 2 2) 0
        [[1], [0]]).1.finish).2.filter (fun e => e.channel == 0) = []
    ∧ ((runUnderrun (UnderrunAnalyser.new 1 1 2 2) 0 [[1], [0]]).1.finish).2 = []
    ∧ ((runUnderrun (UnderrunAnalyser.new 1 1 2 2) 0 [[1], [0]]).1.finish).1 = 0 := by
  decide

/-- Claim C6 (amended): a channel whose trailing zero-run has length
exactly the configured minimum (its last `threshold` samples are zero and
the run extends no further back) gets exactly one underrun event at
`finish`, spanning those final samples with end equal to the total frame
count. -/
theorem underrun_eos_closure_C6 (C sr k i : ℕ) (frames : List (List ℤ))
    (hi : i < C) (hlen : ∀ f ∈ frames, f.length = C)
    (hz : zeroSuffixLen (chanSamples i frames) = k) :
    ((runUnderrun (UnderrunAnalyser.new C sr k frames.length) 0
        frames).1.finish).2.filter (fun e => e.channel == i) =
      [⟨i, k, frames.length - k, frames.length⟩]
    ∧ ((runUnderrun (UnderrunAnalyser.new C sr k frames.length) 0
        frames).1.finish).1 = ERR_CONTAINS_UNDERRUN := by
  set A := (runUnderrun (UnderrunAnalyser.new C sr k frames.length) 0 frames).1 with hA
  have hfields := runUnderrun_fields frames (UnderrunAnalyser.new C sr k frames.length) 0
  rw [← hA] at hfields
  have hsamp : A.samples = k := by
    simpa [UnderrunAnalyser.new] using hfields.1
  have hnum : A.num_frames = frames.length := by
    simpa [UnderrunAnalyser.new] using hfields.2.1
  have hslen : A.states.length = C := by
    simpa [UnderrunAnalyser.new] using hfields.2.2
  have hstate := runUnderrun_state_spec C sr k frames.length i hi frames hlen
  rw [← hA] at hstate
  have hcount : (A.states.getD i ⟨0, 0⟩).underrun_count = k := by
    rw [hstate, hz]
  have := (underrun_finish_C5 A i (by omega)).1 (by rw [hcount, hsamp])
  rw [hnum, hcount] at this
  exact this

/-- Witness for amended C6: minimum 2, stream `[1], [0], [0]`: exactly one
closing event `[1, 3)` on channel 0 and the underrun bit. -/
theorem underrun_eos_closure_C6_witness :
    (0 < 1) ∧ (∀ f ∈ [[(1 : ℤ)], [0], [0]], f.length = 1)
    ∧ zeroSuffixLen (chanSamples 0 [[1], [0], [0]]) = 2
    ∧ ((runUnderrun (UnderrunAnalyser.new 1 1 2 3) 0
        [[1], [0], [0]]).1.finish).2.filter (fun e => e.channel == 0) =
        [⟨0, 2, 1, 3⟩]
    ∧ ((runUnderrun (UnderrunAnalyser.new 1 1 2 3) 0
        [[1], [0], [0]]).1.finish).1 = ERR_CONTAINS_UNDERRUN :=
  ⟨by decide, by decide, by decide,
    (underrun_eos_closure_C6 1 1 2 0 [[1], [0], [0]]
      (by decide) (by decide) (by decide)).1,
    (underrun_eos_closure_C6 1 1 2 0 [[1], [0], [0]]
      (by decide) (by decide) (by decide)).2⟩

/-- Claim C7: a zero sample restarts the run at length 1 when the gap
since the channel's previous zero exceeds one frame, and increments it by
one otherwise; consequently with minimum 2 the stream with a zero at frame
10, a non-zero at frame 11 and a zero at frame 12 ends with a run of
length 1 at frame 12 and fires no underrun event, mid-stream or at
finish. -/
theorem underrun_gap_restart_C7 :
    (∀ (fc : ℕ) (st : DetectorState),
      stepChannelState fc st 0 =
        ⟨if fc - st.underrun_prev_index > 1 then 1 else st.underrun_count + 1, fc⟩)
    ∧ (((runUnderrun (UnderrunAnalyser.new 1 1 2 13) 0
          (List.replicate 10 [1] ++ [[0], [1], [0]])).1.states.getD 0
          ⟨0, 0⟩).underrun_count = 1)
    ∧ ((runUnderrun (UnderrunAnalyser.new 1 1 2 13) 0
          (List.replicate 10 [1] ++ [[0], [1], [0]])).2 = [])
    ∧ (((runUnderrun (UnderrunAnalyser.new 1 1 2 13) 0
          (List.replicate 10 [1] ++ [[0], [1], [0]])).1.finish).2 = [])
    ∧ (((runUnderrun (UnderrunAnalyser.new 1 1 2 13) 0
          (List.replicate 10 [1] ++ [[0], [1], [0]])).1.finish).1 = 0) := by
  constructor
  · intro fc st
    unfold stepChannelState
    rw [if_pos rfl]
    by_cases h : fc - st.underrun_prev_index > 1
    · simp [h]
    · simp [h]
  · refine ⟨?_, ?_, ?_, ?_⟩ <;> decide

/-! ## Silence analyser lemmas -/

theorem shortTermLufs_some (m : Measurement) (c : ℚ) (hm : m.shortTerm = some c) :
    shortTermLufs m = (c : WithBot ℚ) := by
  simp [shortTermLufs, hm]

theorem setLastEnd_length :
    ∀ (segs : List InternalSegment) (e : ℕ),
      (setLastEnd segs e).length = segs.length := by
  intro segs
  induction segs with
  | nil => intro e; rfl
  | cons s rest ih =>
    intro e
    cases rest with
    | nil => rfl
    | cons s' rest' => simpa [setLastEnd] using ih e

/-- Counterexample to claim C1 as stated: a window completing while
`add_frames` reports an error is not skipped — the threshold logic still
runs on the substituted `⊥` loudness, so `previous_lufs` is overwritten
and a silence segment is opened. -/
theorem silence_addFrames_error_C1_cex :
    (Measurement.mk false none).addFramesOk = false
    ∧ ((SilenceAnalyser.new 1 1 (-70) 99 4).analyse ⟨false, none⟩ 0 [5]).2 =
        [SilenceLog.warningAddFrames, SilenceLog.silenceStart 0]
    ∧ ((SilenceAnalyser.new 1 1 (-70) 99 4).analyse ⟨false, none⟩ 0
        [5]).1.state.previous_lufs = (⊥ : WithBot ℚ)
    ∧ (SilenceAnalyser.new 1 1 (-70) 99 4).state.previous_lufs = ((0 : ℚ) : WithBot ℚ)
    ∧ ((SilenceAnalyser.new 1 1 (-70) 99 4).analyse ⟨false, none⟩ 0
        [5]).1.segments.length = 1
    ∧ (SilenceAnalyser.new 1 1 (-70) 99 4).segments.length = 0 := by
  decide

/-- Claim C1 (amended): when the meter's add-frames call reports an error
for a completed window, the analyser logs a warning but does not skip the
window's threshold logic: the analyser state after the window is exactly
the state produced with a successful add-frames call and the same
short-term reading, and the log gains only the leading warning. -/
theorem silence_addFrames_warning_only_C1 (a : SilenceAnalyser)
    (st : Option ℚ) (fc : ℕ) (frame : List ℤ) :
    (a.analyse ⟨false, st⟩ fc frame).1 = (a.analyse ⟨true, st⟩ fc frame).1
    ∧ (a.analyse ⟨false, st⟩ fc frame).2 =
        (if (fillBuf a.frame_buf a.frame_buf_iter frame).2 ≥ a.window_size then
          SilenceLog.warningAddFrames :: (a.analyse ⟨true, st⟩ fc frame).2
        else []) := by
  by_cases hw : (fillBuf a.frame_buf a.frame_buf_iter frame).2 ≥ a.window_size
  · constructor
    · simp [SilenceAnalyser.analyse, hw, shortTermLufs]
    · simp [SilenceAnalyser.analyse, hw, shortTermLufs]
  · constructor
    · simp [SilenceAnalyser.analyse, hw]
    · simp [SilenceAnalyser.analyse, hw]

/-- Claim C3: for a completed window with computed loudness `c`, the
transitions are edge-triggered against the previous window's loudness with
strict `<`: a falling edge (c < threshold ∧ previous ≥ threshold) opens a
segment at `fc` with no end; a rising edge (c ≥ threshold ∧ previous <
threshold) closes the last segment at `fc` and accumulates
`fc − silence_start_frame`; otherwise only `previous_lufs` changes; and a
window computing exactly the threshold opens nothing. -/
theorem silence_edge_transitions_C3 (a : SilenceAnalyser) (m : Measurement)
    (c : ℚ) (fc : ℕ) (frame : List ℤ)
    (hw : (fillBuf a.frame_buf a.frame_buf_iter frame).2 ≥ a.window_size)
    (hm : m.shortTerm = some c) :
    ((c < a.lufs ∧ a.state.previous_lufs ≥ (a.lufs : WithBot ℚ)) →
      ((a.analyse m fc frame).1.segments =
          a.segments ++ [{ start := fc, end_ := none }]
        ∧ (a.analyse m fc frame).1.state.silence_start_frame = fc
        ∧ (a.analyse m fc frame).1.state.silence_end_frame =
            a.state.silence_end_frame
        ∧ (a.analyse m fc frame).1.count = a.count
        ∧ (a.analyse m fc frame).1.state.previous_lufs = (c : WithBot ℚ)))
    ∧ ((a.lufs ≤ c ∧ a.state.previous_lufs < (a.lufs : WithBot ℚ)) →
      ((a.analyse m fc frame).1.segments = setLastEnd a.segments fc
        ∧ (a.analyse m fc frame).1.count =
            a.count + (fc - a.state.silence_start_frame)
        ∧ (a.analyse m fc frame).1.state.silence_end_frame = fc
        ∧ (a.analyse m fc frame).1.state.silence_start_frame =
            a.state.silence_start_frame
        ∧ (a.analyse m fc frame).1.state.previous_lufs = (c : WithBot ℚ)))
    ∧ ((¬(c < a.lufs ∧ a.state.previous_lufs ≥ (a.lufs : WithBot ℚ))
        ∧ ¬(a.lufs ≤ c ∧ a.state.previous_lufs < (a.lufs : WithBot ℚ))) →
      ((a.analyse m fc frame).1.segments = a.segments
        ∧ (a.analyse m fc frame).1.count = a.count
        ∧ (a.analyse m fc frame).1.state.silence_start_frame =
            a.state.silence_start_frame
        ∧ (a.analyse m fc frame).1.state.silence_end_frame =
            a.state.silence_end_frame
        ∧ (a.analyse m fc frame).1.state.previous_lufs = (c : WithBot ℚ)))
    ∧ (c = a.lufs →
      (a.analyse m fc frame).1.segments.length = a.segments.length) := by
  have hl : shortTermLufs m = (c : WithBot ℚ) := shortTermLufs_some m c hm
  refine ⟨?_, ?_, ?_, ?_⟩
  · rintro ⟨h1, h2⟩
    have hfall : shortTermLufs m < (a.lufs : WithBot ℚ)
        ∧ a.state.previous_lufs ≥ (a.lufs : WithBot ℚ) :=
      ⟨by rw [hl]; exact_mod_cast h1, h2⟩
    have hnorise : ¬(shortTermLufs m ≥ (a.lufs : WithBot ℚ)
        ∧ a.state.previous_lufs < (a.lufs : WithBot ℚ)) := by
      rintro ⟨hr, _⟩
      rw [hl] at hr
      exact absurd h1 (not_lt.mpr (by exact_mod_cast hr))
    simp only [SilenceAnalyser.analyse]
    rw [if_pos hw]
    simp only [if_pos hfall, if_neg hnorise]
    simp [hl]
  · rintro ⟨h1, h2⟩
    have hrise : shortTermLufs m ≥ (a.lufs : WithBot ℚ)
        ∧ a.state.previous_lufs < (a.lufs : WithBot ℚ) :=
      ⟨by rw [hl]; exact_mod_cast h1, h2⟩
    have hnofall : ¬(shortTermLufs m < (a.lufs : WithBot ℚ)
        ∧ a.state.previous_lufs ≥ (a.lufs : WithBot ℚ)) := by
      rintro ⟨hf, _⟩
      rw [hl] at hf
      exact absurd h1 (not_le.mpr (by exact_mod_cast hf))
    simp only [SilenceAnalyser.analyse]
    rw [if_pos hw]
    simp only [if_pos hrise, if_neg hnofall]
    simp [hl]
  · rintro ⟨h1, h2⟩
    have hnofall : ¬(shortTermLufs m < (a.lufs : WithBot ℚ)
        ∧ a.state.previous_lufs ≥ (a.lufs : WithBot ℚ)) := by
      rintro ⟨hf, hp⟩
      rw [hl] at hf
      exact h1 ⟨by exact_mod_cast hf, hp⟩
    have hnorise : ¬(shortTermLufs m ≥ (a.lufs : WithBot ℚ)
        ∧ a.state.previous_lufs < (a.lufs : WithBot ℚ)) := by
      rintro ⟨hr, hp⟩
      rw [hl] at hr
      exact h2 ⟨by exact_mod_cast hr, hp⟩
    simp only [SilenceAnalyser.analyse]
    rw [if_pos hw]
    simp only [if_neg hnofall, if_neg hnorise]
    simp [hl]
  · intro hc
    subst hc
    have hnofall : ¬(shortTermLufs m < (a.lufs : WithBot ℚ)
        ∧ a.state.previous_lufs ≥ (a.lufs : WithBot ℚ)) := by
      rintro ⟨hf, _⟩
      rw [hl] at hf
      exact absurd hf (lt_irrefl _)
    simp only [SilenceAnalyser.analyse]
    rw [if_pos hw]
    simp only [if_neg hnofall]
    by_cases hr : (shortTermLufs m ≥ (a.lufs : WithBot ℚ)
        ∧ a.state.previous_lufs < (a.lufs : WithBot ℚ))
    · simp only [if_pos hr]
      simp [setLastEnd_length]
    · simp only [if_neg hr]

/-- Witness for C3: threshold −70, previous loudness 0 (loud), window at
frame 0 computing −71 opens a segment there. -/
theorem silence_edge_transitions_C3_witness :
    ((fillBuf (SilenceAnalyser.new 1 1 (-70) 99 4).frame_buf
        (SilenceAnalyser.new 1 1 (-70) 99 4).frame_buf_iter [0]).2 ≥
      (SilenceAnalyser.new 1 1 (-70) 99 4).window_size)
    ∧ ((-71 : ℚ) < -70)
    ∧ ((SilenceAnalyser.new 1 1 (-70) 99 4).analyse ⟨true, some (-71)⟩ 0
        [0]).1.segments =
      (SilenceAnalyser.new 1 1 (-70) 99 4).segments ++ [{ start := 0, end_ := none }] :=
  ⟨by decide, by norm_num,
    ((silence_edge_transitions_C3 (SilenceAnalyser.new 1 1 (-70) 99 4)
      ⟨true, some (-71)⟩ (-71) 0 [0] (by decide) rfl).1
      ⟨by decide, by decide⟩).1⟩

/-- Claim C4: when the stream ends below threshold, `finish` produces
exactly the silent-sample total and segment closure that one more
rising-edge transition at frame `num_frames` would have produced in
`analyse`: it adds `num_frames − silence_start_frame` to the silent total
and sets the open segment's end to `num_frames`. -/
theorem silence_finish_refines_rising_C4 (a : SilenceAnalyser)
    (m : Measurement) (c : ℚ) (frame : List ℤ)
    (hw : (fillBuf a.frame_buf a.frame_buf_iter frame).2 ≥ a.window_size)
    (hm : m.shortTerm = some c) (hc : a.lufs ≤ c)
    (hprev : a.state.previous_lufs < (a.lufs : WithBot ℚ)) :
    a.finish.count = (a.analyse m a.num_frames frame).1.count
    ∧ a.finish.segments = (a.analyse m a.num_frames frame).1.segments
    ∧ a.finish.count = a.count + (a.num_frames - a.state.silence_start_frame)
    ∧ a.finish.segments = setLastEnd a.segments a.num_frames := by
  have hl : shortTermLufs m = (c : WithBot ℚ) := shortTermLufs_some m c hm
  have hrise : shortTermLufs m ≥ (a.lufs : WithBot ℚ)
      ∧ a.state.previous_lufs < (a.lufs : WithBot ℚ) :=
    ⟨by rw [hl]; exact_mod_cast hc, hprev⟩
  have hnofall : ¬(shortTermLufs m < (a.lufs : WithBot ℚ)
      ∧ a.state.previous_lufs ≥ (a.lufs : WithBot ℚ)) := by
    rintro ⟨hf, _⟩
    rw [hl] at hf
    exact absurd hc (not_le.mpr (by exact_mod_cast hf))
  have hana : (a.analyse m a.num_frames frame).1.count =
        a.count + (a.num_frames - a.state.silence_start_frame)
      ∧ (a.analyse m a.num_frames frame).1.segments =
        setLastEnd a.segments a.num_frames := by
    constructor
    · simp only [SilenceAnalyser.analyse]
      rw [if_pos hw]
      simp only [if_pos hrise, if_neg hnofall]
    · simp only [SilenceAnalyser.analyse]
      rw [if_pos hw]
      simp only [if_pos hrise, if_neg hnofall]
  have hfin : a.finish.count =
        a.count + (a.num_frames - a.state.silence_start_frame)
      ∧ a.finish.segments = setLastEnd a.segments a.num_frames := by
    constructor
    · simp only [SilenceAnalyser.finish]
      rw [if_pos hprev]
    · simp only [SilenceAnalyser.finish]
      rw [if_pos hprev]
  exact ⟨hfin.1.trans hana.1.symm, hfin.2.trans hana.2.symm, hfin.1, hfin.2⟩


/-- Witness for C4: a mid-silence state (previous −80 LUFS, open segment
from frame 0) closed at `num_frames = 4` by `finish` matches the rising
edge `analyse` would take there with a −60 LUFS window. -/
theorem silence_finish_refines_rising_C4_witness :
    (({ SilenceAnalyser.new 1 1 (-70) 99 4 with
        state := ⟨((-80 : ℚ) : WithBot ℚ), 0, 0⟩,
        segments := [{ start := 0, end_ := none }] } :
        SilenceAnalyser).state.previous_lufs < ((-70 : ℚ) : WithBot ℚ))
    ∧ ({ SilenceAnalyser.new 1 1 (-70) 99 4 with
        state := ⟨((-80 : ℚ) : WithBot ℚ), 0, 0⟩,
        segments := [{ start := 0, end_ := none }] } :
        SilenceAnalyser).finish.count =
      (({ SilenceAnalyser.new 1 1 (-70) 99 4 with
        state := ⟨((-80 : ℚ) : WithBot ℚ), 0, 0⟩,
        segments := [{ start := 0, end_ := none }] } :
        SilenceAnalyser).analyse ⟨true, some (-60)⟩ 4 [0]).1.count :=
  ⟨by decide,
    (silence_finish_refines_rising_C4
      { SilenceAnalyser.new 1 1 (-70) 99 4 with
        state := ⟨((-80 : ℚ) : WithBot ℚ), 0, 0⟩,
        segments := [{ start := 0, end_ := none }] }
      ⟨true, some (-60)⟩ (-60) [0] (by decide) rfl (by decide) (by decide)).1⟩

/-- Counterexample to claim C2 as stated: percentage threshold 50, four
frames of which the first two are silent and the last two loud.  The
silent total at finish is 2 of 4 frames (50 % ≥ 50), yet `finish` returns
0 because the stream ends at or above the LUFS threshold — the claimed
"if and only if" fails. -/
theorem silence_percentage_C2_cex :
    ((runSilence (SilenceAnalyser.new 1 1 (-70) 50 4) 0
        [(⟨true, some (-80)⟩, [0]), (⟨true, some (-80)⟩, [0]),
          (⟨true, some (-60)⟩, [0]), (⟨true, some (-60)⟩, [0])]).1.finish.code = 0)
    ∧ (((runSilence (SilenceAnalyser.new 1 1 (-70) 50 4) 0
        [(⟨true, some (-80)⟩, [0]), (⟨true, some (-80)⟩, [0]),
          (⟨true, some (-60)⟩, [0]), (⟨true, some (-60)⟩, [0])]).1.finish.count : ℚ) /
        ((runSilence (SilenceAnalyser.new 1 1 (-70) 50 4) 0
        [(⟨true, some (-80)⟩, [0]), (⟨true, some (-80)⟩, [0]),
          (⟨true, some (-60)⟩, [0]), (⟨true, some (-60)⟩, [0])]).1.num_frames : ℚ) * 100 ≥
        (runSilence (SilenceAnalyser.new 1 1 (-70) 50 4) 0
        [(⟨true, some (-80)⟩, [0]), (⟨true, some (-80)⟩, [0]),
          (⟨true, some (-60)⟩, [0]), (⟨true, some (-60)⟩, [0])]).1.percentage)
    ∧ ERR_CONTAINS_SILENCE ≠ 0 := by
  refine ⟨by decide, ?_, by decide⟩
  have hcnt : (runSilence (SilenceAnalyser.new 1 1 (-70) 50 4) 0
      [(⟨true, some (-80)⟩, [0]), (⟨true, some (-80)⟩, [0]),
        (⟨true, some (-60)⟩, [0]), (⟨true, some (-60)⟩, [0])]).1.finish.count = 2 := by
    decide
  have hnum : (runSilence (SilenceAnalyser.new 1 1 (-70) 50 4) 0
      [(⟨true, some (-80)⟩, [0]), (⟨true, some (-80)⟩, [0]),
        (⟨true, some (-60)⟩, [0]), (⟨true, some (-60)⟩, [0])]).1.num_frames = 4 := by
    decide
  have hpct : (runSilence (SilenceAnalyser.new 1 1 (-70) 50 4) 0
      [(⟨true, some (-80)⟩, [0]), (⟨true, some (-80)⟩, [0]),
        (⟨true, some (-60)⟩, [0]), (⟨true, some (-60)⟩, [0])]).1.percentage = 50 := by
    decide
  rw [hcnt, hnum, hpct]
  norm_num

/-- Claim C2 (amended): `finish` returns the silence bit if and only if
the stream ends below the LUFS threshold AND the silent total including
the synthesized closure reaches the percentage threshold; a stream ending
at or above the LUFS threshold returns 0 regardless of accumulated
silence.  The spec's concrete cases hold: a 100 % silent stream at
percentage threshold 99 sets the bit, a 50 % silent stream does not. -/
theorem silence_finish_code_C2 (a : SilenceAnalyser) (_h : 0 < a.num_frames) :
    (a.finish.code = ERR_CONTAINS_SILENCE ↔
      (a.state.previous_lufs < (a.lufs : WithBot ℚ)
        ∧ (((a.count + (a.num_frames - a.state.silence_start_frame) : ℕ) : ℚ) /
            (a.num_frames : ℚ)) * 100 ≥ a.percentage))
    ∧ (runSilence (SilenceAnalyser.new 1 1 (-70) 99 2) 0
        [(⟨true, some (-80)⟩, [0]), (⟨true, some (-80)⟩, [0])]).1.finish.code =
      ERR_CONTAINS_SILENCE
    ∧ (runSilence (SilenceAnalyser.new 1 1 (-70) 99 4) 0
        [(⟨true, some (-80)⟩, [0]), (⟨true, some (-80)⟩, [0]),
          (⟨true, some (-60)⟩, [0]), (⟨true, some (-60)⟩, [0])]).1.finish.code = 0 := by
  refine ⟨?_, ?_, by decide⟩
  · by_cases hp : a.state.previous_lufs < (a.lufs : WithBot ℚ)
    · simp only [SilenceAnalyser.finish]
      rw [if_pos hp]
      by_cases hc : (((a.count + (a.num_frames - a.state.silence_start_frame) : ℕ) : ℚ) /
          (a.num_frames : ℚ)) * 100 ≥ a.percentage
      · rw [if_pos hc]
        exact iff_of_true rfl ⟨hp, hc⟩
      · rw [if_neg hc]
        exact iff_of_false (by simp [ERR_CONTAINS_SILENCE]) fun hh => hc hh.2
    · simp only [SilenceAnalyser.finish]
      rw [if_neg hp]
      exact iff_of_false (by simp [ERR_CONTAINS_SILENCE]) fun hh => hp hh.1
  · have hp : (runSilence (SilenceAnalyser.new 1 1 (-70) 99 2) 0
        [(⟨true, some (-80)⟩, [0]), (⟨true, some (-80)⟩, [0])]).1.state.previous_lufs <
        ((runSilence (SilenceAnalyser.new 1 1 (-70) 99 2) 0
        [(⟨true, some (-80)⟩, [0]), (⟨true, some (-80)⟩, [0])]).1.lufs : WithBot ℚ) := by
      decide
    have hcnt : (runSilence (SilenceAnalyser.new 1 1 (-70) 99 2) 0
        [(⟨true, some (-80)⟩, [0]), (⟨true, some (-80)⟩, [0])]).1.count +
        ((runSilence (SilenceAnalyser.new 1 1 (-70) 99 2) 0
        [(⟨true, some (-80)⟩, [0]), (⟨true, some (-80)⟩, [0])]).1.num_frames -
         (runSilence (SilenceAnalyser.new 1 1 (-70) 99 2) 0
        [(⟨true, some (-80)⟩, [0]), (⟨true, some (-80)⟩, [0])]).1.state.silence_start_frame) = 2 := by
      decide
    have hnum : (runSilence (SilenceAnalyser.new 1 1 (-70) 99 2) 0
        [(⟨true, some (-80)⟩, [0]), (⟨true, some (-80)⟩, [0])]).1.num_frames = 2 := by
      decide
    have hpct : (runSilence (SilenceAnalyser.new 1 1 (-70) 99 2) 0
        [(⟨true, some (-80)⟩, [0]), (⟨true, some (-80)⟩, [0])]).1.percentage = 99 := by
      decide
    simp only [SilenceAnalyser.finish]
    rw [if_pos hp, hcnt, hnum, hpct]
    rw [if_pos (by norm_num : (((2 : ℕ) : ℚ) / ((2 : ℕ) : ℚ)) * 100 ≥ (99 : ℚ))]

/-- Witness for amended C2: the iff instantiated at a freshly constructed
analyser with two frames (positive frame count). -/
theorem silence_finish_code_C2_witness :
    (0 < (SilenceAnalyser.new 1 1 (-70) 99 2).num_frames)
    ∧ ((SilenceAnalyser.new 1 1 (-70) 99 2).finish.code = ERR_CONTAINS_SILENCE ↔
      ((SilenceAnalyser.new 1 1 (-70) 99 2).state.previous_lufs <
          ((SilenceAnalyser.new 1 1 (-70) 99 2).lufs : WithBot ℚ)
        ∧ ((((SilenceAnalyser.new 1 1 (-70) 99 2).count +
            ((SilenceAnalyser.new 1 1 (-70) 99 2).num_frames -
             (SilenceAnalyser.new 1 1 (-70) 99 2).state.silence_start_frame) : ℕ) : ℚ) /
            ((SilenceAnalyser.new 1 1 (-70) 99 2).num_frames : ℚ)) * 100 ≥
          (SilenceAnalyser.new 1 1 (-70) 99 2).percentage)) :=
  ⟨by decide,
    (silence_finish_code_C2 (SilenceAnalyser.new 1 1 (-70) 99 2) (by decide)).1⟩

/-! ## Exit status and report lemmas -/

theorem underrun_finish_code_cases (a : UnderrunAnalyser) :
    a.finish.1 = 0 ∨ a.finish.1 = ERR_CONTAINS_UNDERRUN := by
  by_cases h : (a.contains_underrun ||
      !(finishEvents a.samples a.num_frames 0 a.states).isEmpty) = true
  · right
    show (if a.contains_underrun ||
        !(finishEvents a.samples a.num_frames 0 a.states).isEmpty then
        ERR_CONTAINS_UNDERRUN else 0) = ERR_CONTAINS_UNDERRUN
    rw [if_pos h]
  · left
    show (if a.contains_underrun ||
        !(finishEvents a.samples a.num_frames 0 a.states).isEmpty then
        ERR_CONTAINS_UNDERRUN else 0) = 0
    rw [if_neg h]

theorem silence_finish_code_cases (a : SilenceAnalyser) :
    a.finish.code = 0 ∨ a.finish.code = ERR_CONTAINS_SILENCE := by
  simp only [SilenceAnalyser.finish]
  by_cases hp : a.state.previous_lufs < (a.lufs : WithBot ℚ)
  · rw [if_pos hp]
    by_cases hc : (((a.count + (a.num_frames - a.state.silence_start_frame) : ℕ) : ℚ) /
        (a.num_frames : ℚ)) * 100 ≥ a.percentage
    · right; rw [if_pos hc]
    · left; rw [if_neg hc]
  · left; rw [if_neg hp]

/-- Counterexample to claim C8 as stated: the user-input failure exit
status (unopenable input) is 1, which is not distinct from the defect-bit
combinations — it coincides exactly with the underrun-only verdict. -/
theorem exit_status_C8_cex :
    mainExit false ⟨true, true, 16, -70, 99⟩ 2 48000 0 [] = ERR_CONTAINS_UNDERRUN
    ∧ ERR_CONTAINS_UNDERRUN ≠ 0 := by
  decide

/-- Claim C8 (amended): the exit status of a successful run is the
bitwise OR of the analyser result bits (0 clean, bit 0 underrun, bit 1
silence, both settable simultaneously), and the user-input failures
(unopenable input, or neither analyser enabled) exit 1 — a status that
coincides with the underrun-only defect combination rather than being
distinct from every defect-bit combination. -/
theorem exit_status_C8 (args : AnalyzeArgs)
    (channels sample_rate num_frames : ℕ)
    (inputs : List (Measurement × List ℤ)) :
    (mainExit false args channels sample_rate num_frames inputs = 1)
    ∧ (args.underrun = false → args.silence = false →
        mainExit true args channels sample_rate num_frames inputs = 1)
    ∧ ((1 : ℕ) = ERR_CONTAINS_UNDERRUN ||| 0)
    ∧ ((args.underrun || args.silence) = true →
        ∃ u s : Bool, mainExit true args channels sample_rate num_frames inputs =
          (if u then ERR_CONTAINS_UNDERRUN else 0) |||
          (if s then ERR_CONTAINS_SILENCE else 0))
    ∧ (mainExit true ⟨true, true, 1, -70, 99⟩ 1 1 2
        [(⟨true, some (-80)⟩, [0]), (⟨true, some (-80)⟩, [0])] =
        (ERR_CONTAINS_UNDERRUN ||| ERR_CONTAINS_SILENCE))
    ∧ (mainExit true ⟨true, true, 1, -70, 99⟩ 1 1 1 [(⟨true, some 0⟩, [1])] = 0) := by
  refine ⟨by simp [mainExit], ?_, by decide, ?_, ?_, by decide⟩
  · intro hu hs
    simp [mainExit, hu, hs]
  · intro hus
    have hcond : (!args.underrun && !args.silence) = false := by
      cases hu : args.underrun <;> cases hs : args.silence <;> simp_all
    have hmain : mainExit true args channels sample_rate num_frames inputs =
        analyze args channels sample_rate num_frames inputs := by
      simp [mainExit, hcond]
    rw [hmain]
    simp only [analyze]
    have hU : (if args.underrun then
          ((runUnderrun (UnderrunAnalyser.new channels sample_rate args.samples
            num_frames) 0 (inputs.map Prod.snd)).1.finish).1
        else 0) = 0 ∨
        (if args.underrun then
          ((runUnderrun (UnderrunAnalyser.new channels sample_rate args.samples
            num_frames) 0 (inputs.map Prod.snd)).1.finish).1
        else 0) = ERR_CONTAINS_UNDERRUN := by
      cases hu : args.underrun
      · left; simp
      · simpa using underrun_finish_code_cases _
    have hS : (if args.silence then
          ((runSilence (SilenceAnalyser.new channels sample_rate args.lufs
            args.silence_percentage num_frames) 0 inputs).1).finish.code
        else 0) = 0 ∨
        (if args.silence then
          ((runSilence (SilenceAnalyser.new channels sample_rate args.lufs
            args.silence_percentage num_frames) 0 inputs).1).finish.code
        else 0) = ERR_CONTAINS_SILENCE := by
      cases hs : args.silence
      · left; simp
      · simpa using silence_finish_code_cases _
    rcases hU with hU | hU <;> rcases hS with hS | hS
    · exact ⟨false, false, by rw [hU, hS]; rfl⟩
    · exact ⟨false, true, by rw [hU, hS]; rfl⟩
    · exact ⟨true, false, by rw [hU, hS]; rfl⟩
    · exact ⟨true, true, by rw [hU, hS]; rfl⟩
  · have hu : ((runUnderrun (UnderrunAnalyser.new 1 1 1 2) 0
        [[0], [0]]).1.finish).1 = ERR_CONTAINS_UNDERRUN := by decide
    have hp : (runSilence (SilenceAnalyser.new 1 1 (-70) 99 2) 0
        [(⟨true, some (-80)⟩, [0]), (⟨true, some (-80)⟩, [0])]).1.state.previous_lufs <
        ((runSilence (SilenceAnalyser.new 1 1 (-70) 99 2) 0
        [(⟨true, some (-80)⟩, [0]), (⟨true, some (-80)⟩, [0])]).1.lufs : WithBot ℚ) := by
      decide
    have hcnt : (runSilence (SilenceAnalyser.new 1 1 (-70) 99 2) 0
        [(⟨true, some (-80)⟩, [0]), (⟨true, some (-80)⟩, [0])]).1.count +
        ((runSilence (SilenceAnalyser.new 1 1 (-70) 99 2) 0
        [(⟨true, some (-80)⟩, [0]), (⟨true, some (-80)⟩, [0])]).1.num_frames -
         (runSilence (SilenceAnalyser.new 1 1 (-70) 99 2) 0
        [(⟨true, some (-80)⟩, [0]), (⟨true, some (-80)⟩, [0])]).1.state.silence_start_frame) = 2 := by
      decide
    have hnum : (runSilence (SilenceAnalyser.new 1 1 (-70) 99 2) 0
        [(⟨true, some (-80)⟩, [0]), (⟨true, some (-80)⟩, [0])]).1.num_frames = 2 := by
      decide
    have hpct : (runSilence (SilenceAnalyser.new 1 1 (-70) 99 2) 0
        [(⟨true, some (-80)⟩, [0]), (⟨true, some (-80)⟩, [0])]).1.percentage = 99 := by
      decide
    have hs : ((runSilence (SilenceAnalyser.new 1 1 (-70) 99 2) 0
        [(⟨true, some (-80)⟩, [0]), (⟨true, some (-80)⟩, [0])]).1).finish.code =
        ERR_CONTAINS_SILENCE := by
      simp only [SilenceAnalyser.finish]
      rw [if_pos hp, hcnt, hnum, hpct]
      rw [if_pos (by norm_num : (((2 : ℕ) : ℚ) / ((2 : ℕ) : ℚ)) * 100 ≥ (99 : ℚ))]
    show ((runUnderrun (UnderrunAnalyser.new 1 1 1 2) 0 [[0], [0]]).1.finish).1 |||
        ((runSilence (SilenceAnalyser.new 1 1 (-70) 99 2) 0
          [(⟨true, some (-80)⟩, [0]), (⟨true, some (-80)⟩, [0])]).1).finish.code =
        ERR_CONTAINS_UNDERRUN ||| ERR_CONTAINS_SILENCE
    rw [hu, hs]

/-- Witness for amended C8: both analysers enabled, one channel; the
existential exit decomposition instantiates on an empty stream. -/
theorem exit_status_C8_witness :
    ((true || true) = true)
    ∧ (∃ u s : Bool, mainExit true ⟨true, true, 16, -70, 99⟩ 1 48000 0 [] =
        (if u then ERR_CONTAINS_UNDERRUN else 0) |||
        (if s then ERR_CONTAINS_SILENCE else 0)) :=
  ⟨rfl, (exit_status_C8 ⟨true, true, 16, -70, 99⟩ 1 48000 0 []).2.2.2.1 rfl⟩

/-- Claim C9: the Silence Analyser's `json` returns its named fragment if
and only if at least one silence segment was recorded; with zero findings
it returns `None` and the `"silence"` key is omitted from the assembled
report entirely (no empty result list is emitted). -/
theorem silence_json_C9 (a : SilenceAnalyser) (u : UnderrunAnalyser) :
    (a.json.isSome ↔ a.segments ≠ [])
    ∧ (a.segments = [] →
        a.json = none ∧ write_json [u.json, a.json] = [])
    ∧ (a.segments ≠ [] →
        a.json = some ("silence",
          (a.segments.map (segJson a.num_frames a.sample_rate), a.lufs))
        ∧ a.segments.map (segJson a.num_frames a.sample_rate) ≠ []
        ∧ write_json [u.json, a.json] =
          [("silence",
            (a.segments.map (segJson a.num_frames a.sample_rate), a.lufs))]) := by
  refine ⟨?_, ?_, ?_⟩
  · by_cases h : a.segments = []
    · simp [SilenceAnalyser.json, h]
    · simp [SilenceAnalyser.json, List.isEmpty_iff, h]
  · intro h
    have hj : a.json = none := by
      simp [SilenceAnalyser.json, h]
    exact ⟨hj, by rw [hj]; rfl⟩
  · intro h
    have hne : a.segments.isEmpty = false := by
      cases hs : a.segments with
      | nil => exact absurd hs h
      | cons s rest => rfl
    have hj : a.json = some ("silence",
        (a.segments.map (segJson a.num_frames a.sample_rate), a.lufs)) := by
      simp [SilenceAnalyser.json, hne]
    refine ⟨hj, ?_, by rw [hj]; rfl⟩
    simpa using h
/-- Witness for C9 at a concrete analyser with one recorded segment: the
`"silence"` fragment is present. -/
theorem silence_json_C9_witness :
    (({ SilenceAnalyser.new 1 1 (-70) 99 4 with
        segments := [{ start := 0, end_ := some 2 }] } :
        SilenceAnalyser).segments ≠ [])
    ∧ ({ SilenceAnalyser.new 1 1 (-70) 99 4 with
        segments := [{ start := 0, end_ := some 2 }] } :
        SilenceAnalyser).json = some ("silence",
        (({ SilenceAnalyser.new 1 1 (-70) 99 4 with
          segments := [{ start := 0, end_ := some 2 }] } :
          SilenceAnalyser).segments.map (segJson
            ({ SilenceAnalyser.new 1 1 (-70) 99 4 with
              segments := [{ start := 0, end_ := some 2 }] } :
              SilenceAnalyser).num_frames
            ({ SilenceAnalyser.new 1 1 (-70) 99 4 with
              segments := [{ start := 0, end_ := some 2 }] } :
              SilenceAnalyser).sample_rate),
          ({ SilenceAnalyser.new 1 1 (-70) 99 4 with
            segments := [{ start := 0, end_ := some 2 }] } :
            SilenceAnalyser).lufs)) :=
  ⟨by decide,
    ((silence_json_C9
      { SilenceAnalyser.new 1 1 (-70) 99 4 with
        segments := [{ start := 0, end_ := some 2 }] }
      (UnderrunAnalyser.new 1 1 16 4)).2.2 (by decide)).1⟩

end Analwave
